import Mathlib

/-!
Shallow embedding of the image-sharpener frontend core
(`src/frontend/src/main.ts` and the browser-capability module), together
with proofs settling the specification claims about it.

The embedding renders the TypeScript source as pure Lean functions:
 * browser primitives (`canvas.toBlob`, `img.decode`, 2d-context
   acquisition) become oracle parameters supplied to each function;
 * thrown JS exceptions become `Except String` values;
 * the async batch machinery (`mapWithConcurrency`) and the stateful
   singletons (`BrowserCapabilityDetector`, the `isReprocessing` flag)
   become explicit small-step state machines driven by schedules of
   events, so that every interleaving of the single-threaded JS event
   loop is covered by quantifying over schedules.
-/

namespace ImgSharp
/-- Output formats, from `type OutputFormat = 'webp' | 'jpeg' | 'png' | 'avif'`. -/
inductive OutputFormat where
  | webp
  | jpeg
  | png
  | avif
deriving DecidableEq, Repr

/-- The lower-case name of a format (the literal string of the TS union). -/
def formatName : OutputFormat → String
  | .webp => "webp"
  | .jpeg => "jpeg"
  | .png => "png"
  | .avif => "avif"

/-- `format.toUpperCase()` as used in the user-facing fallback messages. -/
def upperName : OutputFormat → String
  | .webp => "WEBP"
  | .jpeg => "JPEG"
  | .png => "PNG"
  | .avif => "AVIF"

/-- `getMimeType` from `main.ts`: the chain of conditionals mapping a format
to its MIME type. -/
def getMimeType (format : OutputFormat) : String :=
  if format = .webp then "image/webp"
  else if format = .jpeg then "image/jpeg"
  else if format = .png then "image/png"
  else "image/avif"

/-- `getExtension` from `main.ts`: `format === 'jpeg' ? 'jpg' : format`. -/
def getExtension (format : OutputFormat) : String :=
  if format = .jpeg then "jpg" else formatName format

/-- `FormatSupport` from the browser-capability module: one boolean per
candidate output format. -/
structure FormatSupport where
  avif : Bool
  webp : Bool
  jpeg : Bool
  png : Bool
deriving DecidableEq, Repr

/-- Indexing `support[format]` on a `FormatSupport` record. -/
def FormatSupport.supp (s : FormatSupport) : OutputFormat → Bool
  | .avif => s.avif
  | .webp => s.webp
  | .jpeg => s.jpeg
  | .png => s.png

/-- `getBestFallbackFormat` from the browser-capability module, applied to a
support snapshot: return the requested format when supported, otherwise walk
the fixed priority chain avif → webp → jpeg, webp → jpeg. -/
def getBestFallbackFormat (s : FormatSupport) (requestedFormat : OutputFormat) :
    OutputFormat :=
  if s.supp requestedFormat then requestedFormat
  else if requestedFormat = .avif then
    (if s.webp then .webp else .jpeg)
  else if requestedFormat = .webp then .jpeg
  else requestedFormat

/-- A blob as the encoder returns it: a declared MIME type and a byte size. -/
structure Blob where
  type : String
  size : Nat
deriving DecidableEq, Repr

/-- The `usedFallback` payload returned by `encodeCanvas`
(`{ requestedFormat, reason }`). -/
structure EncFallback where
  requestedFormat : OutputFormat
  reason : String
deriving DecidableEq, Repr

/-- The success value of `encodeCanvas`:
`{ blob, actualFormat, usedFallback? }`. -/
structure EncodeResult where
  blob : Blob
  actualFormat : OutputFormat
  usedFallback : Option EncFallback
deriving DecidableEq, Repr

/-- The verification-failure message thrown when the encoder returned a blob
whose declared type differs from the requested one. -/
def verifyErrMsg (expected actual : String) : String :=
  "エンコード結果の形式が不正です: 期待=" ++ expected ++ ", 実際=" ++ actual

/-- The fallback reason recorded when an encode attempt for `actualFormat`
failed and the pipeline substituted JPEG. -/
def jpegRetryReason (actualFormat : OutputFormat) : String :=
  upperName actualFormat ++ "エンコード失敗のためJPEGで出力"

/-- The fallback reason recorded before encoding when the requested format is
unsupported and `actualFormat` was substituted. -/
def unsupportedReason (format actualFormat : OutputFormat) : String :=
  upperName format ++ "未対応のため" ++ upperName actualFormat ++ "で出力"

/-- The outer `catch` block of `encodeCanvas` (`main.ts` lines 158-185):
on the baseline format the error is rethrown; otherwise one more JPEG
`toBlob` call is made and, when it yields a blob, returned without any type
verification. `tr` is the trace of `(mimeType, quality)` encoder calls made
so far. -/
def encodeCatch {Q : Type} (enc : String → Q → Option Blob)
    (format actualFormat : OutputFormat) (quality : Q) (errMsg : String)
    (tr : List (String × Q)) :
    Except String EncodeResult × List (String × Q) :=
  if actualFormat = .jpeg then
    (.error errMsg, tr)
  else
    match enc "image/jpeg" quality with
    | none =>
      (.error ("画像のエンコードに失敗しました: " ++ errMsg),
        tr ++ [("image/jpeg", quality)])
    | some fallbackBlob =>
      (.ok { blob := fallbackBlob, actualFormat := .jpeg,
             usedFallback := some { requestedFormat := format,
                                    reason := jpegRetryReason actualFormat } },
        tr ++ [("image/jpeg", quality)])

/-- `encodeCanvas` from `main.ts` (lines 103-186), instrumented with the list
of `(mimeType, quality)` pairs passed to `canvas.toBlob`. The oracle `enc`
stands for `canvas.toBlob` on the item's canvas: `none` models the callback
receiving `null`. -/
def encodeCanvasT {Q : Type} (enc : String → Q → Option Blob)
    (support : FormatSupport) (format : OutputFormat) (quality : Q) :
    Except String EncodeResult × List (String × Q) :=
  let isSupported := support.supp format
  let actualFormat :=
    if isSupported then format else getBestFallbackFormat support format
  let usedFallback : Option EncFallback :=
    if isSupported then none
    else some { requestedFormat := format,
                reason := unsupportedReason format actualFormat }
  let type := getMimeType actualFormat
  match enc type quality with
  | none =>
    -- `if (!blob) throw new Error(...)`, caught by the outer catch
    encodeCatch enc format actualFormat quality
      ("Failed to encode image as " ++ formatName actualFormat)
      [(type, quality)]
  | some blob =>
    if blob.type = type then
      (.ok { blob := blob, actualFormat := actualFormat,
             usedFallback := usedFallback }, [(type, quality)])
    else if actualFormat ≠ .jpeg then
      match enc "image/jpeg" quality with
      | some fallbackBlob =>
        if fallbackBlob.type = "image/jpeg" then
          (.ok { blob := fallbackBlob, actualFormat := .jpeg,
                 usedFallback := some { requestedFormat := format,
                                        reason := jpegRetryReason actualFormat } },
            [(type, quality), ("image/jpeg", quality)])
        else
          -- verification throw, caught by the outer catch
          encodeCatch enc format actualFormat quality
            (verifyErrMsg type blob.type)
            [(type, quality), ("image/jpeg", quality)]
      | none =>
        encodeCatch enc format actualFormat quality
          (verifyErrMsg type blob.type)
          [(type, quality), ("image/jpeg", quality)]
    else
      -- mismatch at JPEG itself: thrown, then rethrown by the catch
      encodeCatch enc format actualFormat quality
        (verifyErrMsg type blob.type)
        [(type, quality)]

/-- `encodeCanvas` without the instrumentation trace. -/
def encodeCanvas {Q : Type} (enc : String → Q → Option Blob)
    (support : FormatSupport) (format : OutputFormat) (quality : Q) :
    Except String EncodeResult :=
  (encodeCanvasT enc support format quality).1

/-- The fallback record stored on a queued image
(`{ requestedFormat, actualFormat, reason }`). -/
structure QFallback where
  requestedFormat : OutputFormat
  actualFormat : OutputFormat
  reason : String
deriving DecidableEq, Repr

/-- `QueuedImage` from `main.ts`: one work item of the queue. The `File` is
represented by its name and size; object URLs are opaque strings. -/
structure QueuedImage where
  id : Nat
  fileName : String
  originalUrl : String
  processedBlob : Option Blob
  processedUrl : Option String
  resultFilename : Option String
  originalSize : Nat
  processedSize : Option Nat
  error : Option String
  usedFallback : Option QFallback
deriving DecidableEq, Repr

/-- `file.name.replace(/\.[^.]+$/, '')`: drop a trailing `.ext` whose
extension part is nonempty. -/
def stripExt (name : String) : String :=
  let parts := name.splitOn "."
  match parts.getLast? with
  | some last =>
    if parts.length ≥ 2 ∧ last ≠ "" then
      String.intercalate "." parts.dropLast
    else name
  | none => name

/-- The per-item browser environment one pipeline invocation runs against:
the outcome of `img.decode()`, whether a 2d context is available, the
support snapshot the capability singleton answers with, `canvas.toBlob` on
this item's canvas, and the URL `URL.createObjectURL` hands out for the
processed blob. -/
structure PipeEnv (Q : Type) where
  decode : Except String Unit
  ctxOk : Bool
  support : FormatSupport
  enc : String → Q → Option Blob
  newUrl : String

/-- The fallible body shared by `processFile` and the reprocess workers:
decode the original, obtain a canvas (`createCanvasFromImage` throws
`Canvas 2D context unavailable` when no 2d context exists), then
`encodeCanvas`. -/
def runPipeline {Q : Type} (env : PipeEnv Q) (format : OutputFormat)
    (quality : Q) : Except String EncodeResult :=
  match env.decode with
  | .error e => .error e
  | .ok _ =>
    if env.ctxOk then encodeCanvas env.enc env.support format quality
    else .error "Canvas 2D context unavailable"

/-- The success-path field updates shared by `processFile` and the reprocess
workers (`main.ts` lines 202-218 / 412-431). -/
def applySuccess {Q : Type} (env : PipeEnv Q) (r : EncodeResult)
    (image : QueuedImage) : QueuedImage :=
  { image with
    processedBlob := some r.blob
    processedSize := some r.blob.size
    resultFilename :=
      some (stripExt image.fileName ++ "." ++ getExtension r.actualFormat)
    processedUrl := some env.newUrl
    usedFallback := r.usedFallback.map fun f =>
      { requestedFormat := f.requestedFormat,
        actualFormat := r.actualFormat, reason := f.reason } }

/-- `processFile` from `main.ts` (lines 188-224): build a fresh item, run the
pipeline inside try/catch, and record either the artifact or the error
message on the item. It always returns an item — the try/catch spans every
fallible step. -/
def processFile {Q : Type} (env : PipeEnv Q) (id : Nat) (fileName : String)
    (fileSize : Nat) (origUrl : String) (format : OutputFormat) (quality : Q) :
    QueuedImage :=
  let image : QueuedImage :=
    { id := id, fileName := fileName, originalUrl := origUrl,
      processedBlob := none, processedUrl := none, resultFilename := none,
      originalSize := fileSize, processedSize := none, error := none,
      usedFallback := none }
  match runPipeline env format quality with
  | .ok r => applySuccess env r image
  | .error e => { image with error := some e }

/-- The worker body of `reprocessAll` and `reprocessFailedOnly`
(`main.ts` lines 404-436 and 456-488, identical code): rerun the pipeline on
an existing item, in place. On success every processed field is replaced and
`error` is cleared; on failure `error` is set and `usedFallback` cleared —
the processed fields are left as they were. -/
def reprocessImage {Q : Type} (env : PipeEnv Q) (format : OutputFormat)
    (quality : Q) (image : QueuedImage) : QueuedImage :=
  match runPipeline env format quality with
  | .ok r => { applySuccess env r image with error := none }
  | .error e => { image with error := some e, usedFallback := none }

/-- Whether an item currently counts as failed (`q.error` truthy). -/
def isFailed (q : QueuedImage) : Bool :=
  q.error.isSome

/-- The queue-level effect of one `reprocessAll` pass (`main.ts` lines
396-443): every item is rerun with the current settings, positions and
identities preserved. `envOf` supplies the per-item browser outcomes, keyed
by item id. -/
def reprocessAllQueue {Q : Type} (envOf : Nat → PipeEnv Q)
    (format : OutputFormat) (quality : Q) (queue : List QueuedImage) :
    List QueuedImage :=
  queue.map fun img => reprocessImage (envOf img.id) format quality img

/-- The queue-level effect of one `reprocessFailedOnly` pass (`main.ts`
lines 445-495): when no item is failed the function returns before doing
anything; otherwise exactly the failed items (the in-place mutation of the
`queue.filter(q => q.error)` references) are rerun and every other item is
untouched. -/
def reprocessFailedOnlyQueue {Q : Type} (envOf : Nat → PipeEnv Q)
    (format : OutputFormat) (quality : Q) (queue : List QueuedImage) :
    List QueuedImage :=
  if (queue.filter isFailed).length = 0 then queue
  else queue.map fun img =>
    if isFailed img then reprocessImage (envOf img.id) format quality img
    else img

/-- The number of pipeline invocations one `reprocessFailedOnly` pass makes:
one per item of `queue.filter(q => q.error)` (zero when it returns early). -/
def reprocessFailedOnlyCalls (queue : List QueuedImage) : Nat :=
  (queue.filter isFailed).length

/-!
## `mapWithConcurrency` (`main.ts` lines 37-54)

Each runner loops: claim `const current = nextIndex++` synchronously, stop
when `current >= items.length`, otherwise suspend on
`results[current] = await worker(items[current], current)` and loop again.
The machine below makes every runner's position explicit and lets an
arbitrary schedule pick which runner advances next, covering every
interleaving of the event loop (the claim-then-suspend of the source is one
of the schedules; the quantification is over all of them).
-/

/-- Where one runner of `mapWithConcurrency` stands: about to claim an
index, suspended on `await worker(items[i], i)`, or exited its loop. -/
inductive RunnerState where
  | idle
  | working (i : Nat)
  | done
deriving DecidableEq, Repr

/-- `Math.min(concurrency, items.length)` runners are spawned;
`Array.from({length})` clamps a negative length to zero. -/
def numRunners (concurrency : Int) (len : Nat) : Nat :=
  (min concurrency (len : Int)).toNat

/-- The shared state of one `mapWithConcurrency` call: the `nextIndex`
counter, the `results` array (a slot per index, `none` while unassigned),
the runners, and a count of completed `worker` invocations. -/
structure LimState (R : Type) where
  nextIndex : Nat
  results : Nat → Option R
  runners : Nat → RunnerState
  calls : Nat

/-- The state right after `mapWithConcurrency` spawns its runners. -/
def limInit (R : Type) : LimState R :=
  { nextIndex := 0, results := fun _ => none, runners := fun _ => .idle,
    calls := 0 }

/-- One scheduler step: runner `r` (if spawned) advances once. An idle
runner executes its synchronous claim `const current = nextIndex++` and
either exits (`current >= items.length`) or suspends on the worker; a
suspended runner's `await` completes, writing `worker(items[i], i)` into
slot `i`. -/
def limStep {T R : Type} (items : List T) (worker : T → Nat → R)
    (concurrency : Int) (s : LimState R) (r : Nat) : LimState R :=
  if r < numRunners concurrency items.length then
    match s.runners r with
    | .idle =>
      let current := s.nextIndex
      if current < items.length then
        { s with nextIndex := current + 1,
                 runners := fun j => if j = r then .working current
                                     else s.runners j }
      else
        { s with nextIndex := current + 1,
                 runners := fun j => if j = r then .done else s.runners j }
    | .working i =>
      { s with
          results := fun j =>
            if j = i then (items.get? i).map (fun a => worker a i)
            else s.results j,
          runners := fun j => if j = r then .idle else s.runners j,
          calls := s.calls + 1 }
    | .done => s
  else s

/-- Run a whole schedule of runner choices. -/
def limRun {T R : Type} (items : List T) (worker : T → Nat → R)
    (concurrency : Int) (sched : List Nat) : LimState R :=
  sched.foldl (limStep items worker concurrency) (limInit R)

/-- `Promise.all` has resolved: every spawned runner exited its loop. -/
def allDone {R : Type} (concurrency : Int) (len : Nat) (s : LimState R) :
    Prop :=
  ∀ r, r < numRunners concurrency len → s.runners r = .done

instance {R : Type} (concurrency : Int) (len : Nat) (s : LimState R) :
    Decidable (allDone concurrency len s) :=
  Nat.decidableBallLT _ _

/-- The value `mapWithConcurrency` returns: the `results` array read off in
index order (unassigned slots contribute nothing). -/
def limOutput {R : Type} (len : Nat) (s : LimState R) : List R :=
  (List.range len).filterMap s.results

/-- Invariant of the `mapWithConcurrency` machine: slots only ever hold the
worker's value for their index; every claimed in-range index is either
already written or held by exactly the runner that claimed it; a working
runner holds a claimed in-range index; a runner exits only once the counter
has passed the end of the input. -/
structure LimInv {T R : Type} (items : List T) (worker : T → Nat → R)
    (concurrency : Int) (s : LimState R) : Prop where
  val : ∀ i, s.results i = none ∨
        s.results i = (items.get? i).map (fun a => worker a i)
  cov : ∀ i, i < s.nextIndex → i < items.length →
        s.results i ≠ none ∨
          ∃ r, r < numRunners concurrency items.length ∧
            s.runners r = .working i
  wbnd : ∀ r i, r < numRunners concurrency items.length →
         s.runners r = .working i → i < items.length ∧ i < s.nextIndex
  dn : ∀ r, r < numRunners concurrency items.length →
       s.runners r = .done → items.length ≤ s.nextIndex

/-!
## `BrowserCapabilityDetector` (browser-capability module)

`detectSupport` consults `supportCache`, then the in-flight
`detectionPromise`, and only otherwise starts `performDetection` — all
before its first `await`, hence atomically in the single-threaded event
loop. The machine below replays any sequence of calls and probe
resolutions.
-/

/-- The browser environment the probe runs against: `canvas.toBlob` on the
1×1 test canvas, and whether a 2d context is available. -/
structure ProbeEnv where
  probeEnc : String → Option Blob
  ctxOk : Bool

/-- `checkAVIFSupport`: draw one pixel, encode as `image/avif`, and accept
only a non-null blob whose declared type is exactly `image/avif`. -/
def checkAVIFSupport (env : ProbeEnv) : Bool :=
  if !env.ctxOk then false
  else
    match env.probeEnc "image/avif" with
    | some blob => blob.type = "image/avif"
    | none => false

/-- `checkWebPSupport`: same probe against `image/webp`. -/
def checkWebPSupport (env : ProbeEnv) : Bool :=
  if !env.ctxOk then false
  else
    match env.probeEnc "image/webp" with
    | some blob => blob.type = "image/webp"
    | none => false

/-- `performDetection`: probe AVIF and WebP; JPEG and PNG are hard-coded
`true`, never probed. -/
def performDetection (env : ProbeEnv) : FormatSupport :=
  { avif := checkAVIFSupport env, webp := checkWebPSupport env,
    jpeg := true, png := true }

/-- The detector singleton's state: the `supportCache` field, whether the
`detectionPromise` is in flight (set but unresolved), how many times
`performDetection` has been started, who is awaiting the in-flight promise,
and every value a `detectSupport` call has returned so far (tagged with the
caller id). -/
structure DetState where
  supportCache : Option FormatSupport
  detectionPending : Bool
  probeCount : Nat
  waiters : List Nat
  returned : List (Nat × FormatSupport)
deriving DecidableEq, Repr

/-- A fresh detector: both fields `null`. -/
def detInit : DetState :=
  { supportCache := none, detectionPending := false, probeCount := 0,
    waiters := [], returned := [] }

/-- Events the detector observes: `detectSupport()` invoked by caller `c`
(its synchronous prefix), or the in-flight probe resolving. -/
inductive DetEv where
  | call (c : Nat)
  | finish
deriving DecidableEq, Repr

/-- One step of the detector. A call returns the cache when present, joins
the in-flight probe when one is pending, and otherwise starts the probe
(incrementing `probeCount`) and awaits it. A `finish` resolves the pending
probe with `performDetection`, filling the cache and answering every
waiter. -/
def detStep (env : ProbeEnv) (s : DetState) (e : DetEv) : DetState :=
  match e with
  | .call c =>
    match s.supportCache with
    | some sup => { s with returned := s.returned ++ [(c, sup)] }
    | none =>
      if s.detectionPending then { s with waiters := s.waiters ++ [c] }
      else
        { s with detectionPending := true, probeCount := s.probeCount + 1,
                 waiters := s.waiters ++ [c] }
  | .finish =>
    if s.detectionPending then
      let sup := performDetection env
      { s with supportCache := some sup, detectionPending := false,
               waiters := [],
               returned := s.returned ++ s.waiters.map (fun c => (c, sup)) }
    else s

/-- Run the detector over a whole event trace. -/
def detRun (env : ProbeEnv) (trace : List DetEv) : DetState :=
  trace.foldl (detStep env) detInit

/-- Detector invariant: the probe has started exactly once iff it is pending
or resolved, and everything cached or returned is the one probe result. -/
structure DetInv (env : ProbeEnv) (s : DetState) : Prop where
  count : s.probeCount =
    (if s.detectionPending || s.supportCache.isSome then 1 else 0)
  cache : s.supportCache = none ∨ s.supportCache = some (performDetection env)
  ret : ∀ p ∈ s.returned, p.2 = performDetection env

/-!
## Batch-operation coordination (`main.ts` top level)

`handleFiles`, `reprocessAll` and `reprocessFailedOnly` each run a
synchronous prefix (their guards and flag updates, up to the first `await`)
and later complete. `reprocessAll` checks and sets the module-level
`isReprocessing` flag, as does `reprocessFailedOnly`; `handleFiles`
neither checks nor sets it. The machine below replays any interleaving of
those start/finish points; a finish applies the pass's queue effect to the
items the pass captured at its start.
-/

/-- The module-level state of `main.ts`: the queue, the `isReprocessing`
flag, and the operations currently suspended between their first `await`
and their completion. An in-flight `handleFiles` is recorded as the list of
items its `mapWithConcurrency` call will produce; an in-flight reprocess
pass records the settings it read and the ids of the items it captured. -/
structure AppState (Q : Type) where
  queue : List QueuedImage
  isReprocessing : Bool
  pendingSubmits : List (List QueuedImage)
  activeRA : Option (OutputFormat × Q × List Nat)
  activeRFO : Option (OutputFormat × Q × List Nat)

/-- Events: the synchronous prefix of a batch operation starting, or an
in-flight one completing. A finish event carries the per-item browser
outcomes its awaited work observed. -/
inductive AppEv (Q : Type) where
  | startSubmit (results : List QueuedImage)
  | finishSubmit
  | startRA (format : OutputFormat) (quality : Q)
  | finishRA (envOf : Nat → PipeEnv Q)
  | startRFO (format : OutputFormat) (quality : Q)
  | finishRFO (envOf : Nat → PipeEnv Q)

/-- One step of the coordination machine, following the guards of the
source: `handleFiles` returns only on an empty file list and touches no
flag; `reprocessAll` returns when `isReprocessing` is set or the queue is
empty, else sets the flag; `reprocessFailedOnly` returns when the flag is
set or no item is failed, else sets the flag. Each finish applies the
pass's effect and (for the reprocess passes) clears the flag. -/
def appStep {Q : Type} (s : AppState Q) (e : AppEv Q) : AppState Q :=
  match e with
  | .startSubmit results =>
    if results = [] then s
    else { s with pendingSubmits := s.pendingSubmits ++ [results] }
  | .finishSubmit =>
    match s.pendingSubmits with
    | [] => s
    | rs :: rest => { s with pendingSubmits := rest, queue := s.queue ++ rs }
  | .startRA format quality =>
    if s.isReprocessing || s.queue.isEmpty then s
    else { s with isReprocessing := true,
                  activeRA := some (format, quality, s.queue.map (·.id)) }
  | .finishRA envOf =>
    match s.activeRA with
    | none => s
    | some (format, quality, ids) =>
      { s with
          queue := s.queue.map fun img =>
            if img.id ∈ ids then reprocessImage (envOf img.id) format quality img
            else img,
          isReprocessing := false, activeRA := none }
  | .startRFO format quality =>
    if s.isReprocessing then s
    else if s.queue.filter isFailed = [] then s
    else { s with isReprocessing := true,
                  activeRFO :=
                    some (format, quality,
                      (s.queue.filter isFailed).map (·.id)) }
  | .finishRFO envOf =>
    match s.activeRFO with
    | none => s
    | some (format, quality, ids) =>
      { s with
          queue := s.queue.map fun img =>
            if img.id ∈ ids then reprocessImage (envOf img.id) format quality img
            else img,
          isReprocessing := false, activeRFO := none }

/-- Page load: a queue (possibly pre-populated for analysis), flag clear,
nothing in flight. -/
def appInit {Q : Type} (queue : List QueuedImage) : AppState Q :=
  { queue := queue, isReprocessing := false, pendingSubmits := [],
    activeRA := none, activeRFO := none }

/-- Replay a trace of batch-operation events. -/
def appRun {Q : Type} (queue : List QueuedImage) (trace : List (AppEv Q)) :
    AppState Q :=
  trace.foldl appStep (appInit queue)

/-- How many batch operations are currently in flight. -/
def inFlightOps {Q : Type} (s : AppState Q) : Nat :=
  s.pendingSubmits.length + (if s.activeRA.isSome then 1 else 0) +
    (if s.activeRFO.isSome then 1 else 0)

/-- Coordination invariant: the flag is set exactly while a reprocess pass
is in flight, and the two reprocess passes never overlap. -/
structure AppInv {Q : Type} (s : AppState Q) : Prop where
  flag : s.isReprocessing = (s.activeRA.isSome || s.activeRFO.isSome)
  excl : ¬(s.activeRA.isSome = true ∧ s.activeRFO.isSome = true)

/-!
## Shared helper lemmas
-/

/-- The probe environment used by concrete runs: no 2d context, so both
probed formats come out unsupported. -/
def cProbeEnv : ProbeEnv :=
  { probeEnc := fun _ => none, ctxOk := false }

/-- The substitute formats the spec's fixed priority chain can reach from a
requested format (avif → webp → jpeg; webp → jpeg; the two baseline formats
need no substitute). -/
def fallbackChain : OutputFormat → List OutputFormat
  | .avif => [.webp, .jpeg]
  | .webp => [.jpeg]
  | .jpeg => []
  | .png => []

/-- The format `encodeCanvas` targets after the support check: the request
itself when supported, else its best fallback. -/
def selectedFormat (s : FormatSupport) (format : OutputFormat) :
    OutputFormat :=
  if s.supp format then format else getBestFallbackFormat s format

/-- A snapshot on which avif is unsupported but its fallback webp is
supported. -/
def cSupportD : FormatSupport :=
  { avif := false, webp := true, jpeg := true, png := true }

/-- An encoder that, whatever is requested, answers with a PNG-typed blob:
the selected-format attempt and every JPEG retry all mismatch. -/
def cEncD : String → Nat → Option Blob :=
  fun _ _ => some { type := "image/png", size := 3 }

/-- One input file of a batch: name, size, and the object URL
`handleFiles`/`processFile` create for it. -/
structure FileSpec where
  name : String
  size : Nat
  url : String
deriving DecidableEq, Repr

/-- The worker `handleFiles` hands to `mapWithConcurrency`: process file
`i` with the per-item browser outcomes `envOf i`, the item id abstracted
by the index. -/
def batchWorker {Q : Type} (envOf : Nat → PipeEnv Q) (format : OutputFormat)
    (quality : Q) : FileSpec → Nat → QueuedImage :=
  fun file i =>
    processFile (envOf i) i file.name file.size file.url format quality

/-- The snapshot of a browser that honors every format. -/
def cSupportAll : FormatSupport :=
  { avif := true, webp := true, jpeg := true, png := true }

/-- An encoder that always honors the requested MIME type. -/
def cEncOk : String → Nat → Option Blob :=
  fun m _ => some { type := m, size := 5 }

/-- A per-item environment in which every step succeeds. -/
def cEnvOk : PipeEnv Nat :=
  { decode := .ok (), ctxOk := true, support := cSupportAll, enc := cEncOk,
    newUrl := "blob:new" }

/-- The same environment with a failing decode. -/
def cEnvBad : PipeEnv Nat :=
  { cEnvOk with decode := .error "decode failed" }

/-- The C1 exclusivity predicate: the item either carries no error, or
carries no processed artifact handles. -/
def artifactErrorExclusive (img : QueuedImage) : Prop :=
  img.error = none ∨ (img.processedBlob = none ∧ img.processedUrl = none)

instance (img : QueuedImage) : Decidable (artifactErrorExclusive img) := by
  unfold artifactErrorExclusive
  infer_instance

/-- A work item produced by a fully successful submit. -/
def cImg0 : QueuedImage :=
  processFile cEnvOk 0 "a.png" 10 "u0" .webp 80

/-- A failed work item (as submit leaves it after a decode failure). -/
def cImgFail : QueuedImage :=
  processFile cEnvBad 2 "c.png" 7 "u2" .webp 80

/-- A pending item sitting in the queue before a reprocess pass. -/
def cImgA : QueuedImage :=
  { id := 0, fileName := "a.png", originalUrl := "u0", processedBlob := none,
    processedUrl := none, resultFilename := none, originalSize := 1,
    processedSize := none, error := none, usedFallback := none }

/-- The item a reentrant `handleFiles` call produces and pushes. -/
def cImgB : QueuedImage :=
  { cImgA with id := 1, fileName := "b.png", originalUrl := "u1" }

/-! ## Theorems -/

theorem limInv_init {T R : Type} (items : List T) (worker : T → Nat → R)
    (concurrency : Int) : LimInv items worker concurrency (limInit R) := by
  refine ⟨fun i => Or.inl rfl, fun i hi _ => absurd hi (Nat.not_lt_zero i),
    fun r i _ h => by simp [limInit] at h, fun r _ h => by simp [limInit] at h⟩

theorem limInv_step {T R : Type} (items : List T) (worker : T → Nat → R)
    (concurrency : Int) (s : LimState R) (r : Nat)
    (h : LimInv items worker concurrency s) :
    LimInv items worker concurrency (limStep items worker concurrency s r) := by
  unfold limStep
  by_cases hr : r < numRunners concurrency items.length
  · simp only [hr, if_true]
    cases hrs : s.runners r with
    | idle =>
      by_cases hcur : s.nextIndex < items.length
      · simp only [hcur, if_true]
        refine ⟨h.val, ?_, ?_, ?_⟩
        · intro i hi hilen
          rcases Nat.lt_succ_iff_lt_or_eq.mp hi with hi' | hi'
          · rcases h.cov i hi' hilen with hw | ⟨r', hr', hw⟩
            · exact Or.inl hw
            · refine Or.inr ⟨r', hr', ?_⟩
              have hne : r' ≠ r := fun hEq => by
                rw [hEq, hrs] at hw; exact RunnerState.noConfusion hw
              simpa [hne] using hw
          · subst hi'; exact Or.inr ⟨r, hr, by simp⟩
        · intro r' i hr' hw
          by_cases hEq : r' = r
          · subst hEq
            simp only [if_pos rfl] at hw
            cases hw
            exact ⟨hcur, Nat.lt_succ_self _⟩
          · simp only [hEq, if_neg, if_false] at hw
            obtain ⟨h1, h2⟩ := h.wbnd r' i hr' hw
            exact ⟨h1, Nat.lt_succ_of_lt h2⟩
        · intro r' hr' hd
          by_cases hEq : r' = r
          · subst hEq; simp only [if_pos rfl] at hd
            exact RunnerState.noConfusion hd
          · simp only [hEq, if_false] at hd
            exact Nat.le_succ_of_le (h.dn r' hr' hd)
      · simp only [hcur, if_false]
        refine ⟨h.val, ?_, ?_, ?_⟩
        · intro i hi hilen
          have hi' : i < s.nextIndex := by
            rcases Nat.lt_succ_iff_lt_or_eq.mp hi with hi' | hi'
            · exact hi'
            · exact absurd (hi' ▸ hilen) hcur
          rcases h.cov i hi' hilen with hw | ⟨r', hr', hw⟩
          · exact Or.inl hw
          · refine Or.inr ⟨r', hr', ?_⟩
            have hne : r' ≠ r := fun hEq => by
              rw [hEq, hrs] at hw; exact RunnerState.noConfusion hw
            simpa [hne] using hw
        · intro r' i hr' hw
          by_cases hEq : r' = r
          · subst hEq; simp only [if_pos rfl] at hw
            exact RunnerState.noConfusion hw
          · simp only [hEq, if_false] at hw
            obtain ⟨h1, h2⟩ := h.wbnd r' i hr' hw
            exact ⟨h1, Nat.lt_succ_of_lt h2⟩
        · intro r' hr' hd
          by_cases hEq : r' = r
          · exact Nat.le_succ_of_le (Nat.le_of_not_lt hcur)
          · simp only [hEq, if_false] at hd
            exact Nat.le_succ_of_le (h.dn r' hr' hd)
    | working i0 =>
      obtain ⟨hi0len, hi0next⟩ := h.wbnd r i0 hr hrs
      have hsome : (items.get? i0).map (fun a => worker a i0) ≠ none := by
        rw [List.get?_eq_get hi0len]
        simp
      refine ⟨?_, ?_, ?_, ?_⟩
      · intro i
        by_cases hEq : i = i0
        · subst hEq; exact Or.inr (by simp)
        · simpa [hEq] using h.val i
      · intro i hi hilen
        by_cases hEq : i = i0
        · subst hEq
          exact Or.inl (by simpa using hsome)
        · rcases h.cov i hi hilen with hw | ⟨r', hr', hw⟩
          · exact Or.inl (by simpa [hEq] using hw)
          · refine Or.inr ⟨r', hr', ?_⟩
            have hne : r' ≠ r := fun hE => by
              rw [hE, hrs] at hw
              cases hw
              exact hEq rfl
            simpa [hne] using hw
      · intro r' i hr' hw
        by_cases hEq : r' = r
        · subst hEq; simp only [if_pos rfl] at hw
          exact RunnerState.noConfusion hw
        · simp only [hEq, if_false] at hw
          exact h.wbnd r' i hr' hw
      · intro r' hr' hd
        by_cases hEq : r' = r
        · subst hEq; simp only [if_pos rfl] at hd
          exact RunnerState.noConfusion hd
        · simp only [hEq, if_false] at hd
          exact h.dn r' hr' hd
    | done => exact h
  · simp only [hr, if_false]
    exact h

theorem limInv_run {T R : Type} (items : List T) (worker : T → Nat → R)
    (concurrency : Int) (sched : List Nat) :
    LimInv items worker concurrency (limRun items worker concurrency sched) := by
  unfold limRun
  have key : ∀ (s : LimState R), LimInv items worker concurrency s →
      LimInv items worker concurrency
        (sched.foldl (limStep items worker concurrency) s) := by
    induction sched with
    | nil => exact fun s hs => hs
    | cons a t ih =>
      intro s hs
      exact ih _ (limInv_step items worker concurrency s a hs)
  exact key _ (limInv_init items worker concurrency)

/-- Once every runner has exited, every in-range slot holds its worker
value. -/
theorem limRun_results {T R : Type} (items : List T) (worker : T → Nat → R)
    (concurrency : Int) (sched : List Nat)
    (hdone : allDone concurrency items.length
      (limRun items worker concurrency sched))
    (hn : 1 ≤ numRunners concurrency items.length ∨ items.length = 0) :
    ∀ i, i < items.length →
      (limRun items worker concurrency sched).results i =
        (items.get? i).map (fun a => worker a i) := by
  intro i hi
  have inv := limInv_run items worker concurrency sched
  rcases hn with hn | hn
  · have hlen : items.length ≤
        (limRun items worker concurrency sched).nextIndex :=
      inv.dn 0 hn (hdone 0 hn)
    rcases inv.cov i (Nat.lt_of_lt_of_le hi hlen) hi with hw | ⟨r, hr, hw⟩
    · rcases inv.val i with hv | hv
      · exact absurd hv hw
      · exact hv
    · rw [hdone r hr] at hw
      exact RunnerState.noConfusion hw
  · exact absurd (hn ▸ hi) (Nat.not_lt_zero i)

/-- Reading `List.range n` through a function that is `some` everywhere
below `n` yields `n` entries, the `i`-th being `f i`. -/
theorem range_filterMap_all_some {β : Type} (n : Nat) (f : Nat → Option β)
    (h : ∀ i, i < n → (f i).isSome) :
    ((List.range n).filterMap f).length = n ∧
      ∀ i, i < n → ((List.range n).filterMap f).get? i = f i := by
  induction n with
  | zero => simp
  | succ m ih =>
    have hm : ∀ i, i < m → (f i).isSome := fun i hi =>
      h i (Nat.lt_succ_of_lt hi)
    obtain ⟨hlen, hget⟩ := ih hm
    obtain ⟨b, hb⟩ := Option.isSome_iff_exists.mp (h m (Nat.lt_succ_self m))
    rw [List.range_succ, List.filterMap_append]
    have hsingle : List.filterMap f [m] = [b] := by
      simp [List.filterMap, hb]
    constructor
    · simp [hsingle, hlen]
    · intro j hj
      rcases Nat.lt_succ_iff_lt_or_eq.mp hj with hlt | hEq
      · rw [List.get?_append (by rw [hlen]; exact hlt)]
        exact hget j hlt
      · subst hEq
        rw [hsingle]
        have hcat := List.get?_concat_length (List.filterMap f (List.range j)) b
        rw [hlen] at hcat
        rw [hcat, hb]

theorem detInv_init (env : ProbeEnv) : DetInv env detInit :=
  ⟨rfl, Or.inl rfl, fun p hp => absurd hp (List.not_mem_nil p)⟩

theorem detInv_step (env : ProbeEnv) (s : DetState) (e : DetEv)
    (h : DetInv env s) : DetInv env (detStep env s e) := by
  cases e with
  | call c =>
    cases hc : s.supportCache with
    | some sup =>
      have hsup : sup = performDetection env := by
        rcases h.cache with hcc | hcc
        · rw [hc] at hcc; exact Option.noConfusion hcc
        · rw [hc] at hcc; exact Option.some.inj hcc
      refine ⟨?_, ?_, ?_⟩
      · simpa [detStep, hc] using h.count
      · simp only [detStep, hc]
        exact Or.inr (by rw [hsup])
      · intro p hmem
        simp only [detStep, hc, List.mem_append, List.mem_singleton] at hmem
        rcases hmem with hmem | hmem
        · exact h.ret p hmem
        · subst hmem; simpa using hsup
    | none =>
      by_cases hp : s.detectionPending
      · refine ⟨?_, ?_, ?_⟩
        · simpa [detStep, hc, hp] using h.count
        · simp [detStep, hc, hp]
        · intro p hmem
          simp only [detStep, hc, hp, if_true] at hmem
          exact h.ret p hmem
      · refine ⟨?_, ?_, ?_⟩
        · have hcount := h.count
          simp only [hp, hc, Bool.false_or, Option.isSome_none,
            if_false] at hcount
          simp [detStep, hc, hp, hcount]
        · simp [detStep, hc, hp]
        · intro p hmem
          simp only [detStep, hc, hp, if_false] at hmem
          exact h.ret p hmem
  | finish =>
    by_cases hp : s.detectionPending
    · refine ⟨?_, ?_, ?_⟩
      · have hcount := h.count
        simp only [hp, Bool.true_or, if_true] at hcount
        simp [detStep, hp, hcount]
      · simp [detStep, hp]
      · intro p hmem
        simp only [detStep, hp, if_true, List.mem_append] at hmem
        rcases hmem with hmem | hmem
        · exact h.ret p hmem
        · obtain ⟨c0, _, hcp⟩ := List.mem_map.mp hmem
          rw [← hcp]
    · simpa [detStep, hp] using h

theorem detInv_run (env : ProbeEnv) (trace : List DetEv) :
    DetInv env (detRun env trace) := by
  unfold detRun
  have key : ∀ (s : DetState), DetInv env s →
      DetInv env (trace.foldl (detStep env) s) := by
    induction trace with
    | nil => exact fun s hs => hs
    | cons e t ih => exact fun s hs => ih _ (detInv_step env s e hs)
  exact key _ (detInv_init env)

theorem appInv_init {Q : Type} (queue : List QueuedImage) :
    AppInv (appInit (Q := Q) queue) :=
  ⟨rfl, fun h => Bool.noConfusion h.1⟩

theorem appInv_step {Q : Type} (s : AppState Q) (e : AppEv Q)
    (h : AppInv s) : AppInv (appStep s e) := by
  cases e with
  | startSubmit results =>
    by_cases hr : results = []
    · simpa [appStep, hr] using h
    · exact ⟨by simpa [appStep, hr] using h.flag,
        by simpa [appStep, hr] using h.excl⟩
  | finishSubmit =>
    cases hp : s.pendingSubmits with
    | nil => simpa [appStep, hp] using h
    | cons rs rest =>
      exact ⟨by simpa [appStep, hp] using h.flag,
        by simpa [appStep, hp] using h.excl⟩
  | startRA format quality =>
    by_cases hg : s.isReprocessing || s.queue.isEmpty
    · simpa [appStep, hg] using h
    · have hflag : s.isReprocessing = false := by
        cases hb : s.isReprocessing
        · rfl
        · rw [hb] at hg; exact absurd rfl hg
      have hrfo : s.activeRFO.isSome = false := by
        have := h.flag
        rw [hflag] at this
        cases hsome : s.activeRFO.isSome
        · rfl
        · rw [hsome, Bool.or_true] at this
          exact Bool.noConfusion this
      refine ⟨?_, ?_⟩
      · simp [appStep, hg, hrfo]
      · simp [appStep, hg, hrfo]
  | finishRA envOf =>
    cases ha : s.activeRA with
    | none => simpa [appStep, ha] using h
    | some v =>
      obtain ⟨format, quality, ids⟩ := v
      have hrfo : s.activeRFO.isSome = false := by
        cases hsome : s.activeRFO.isSome
        · rfl
        · exact absurd ⟨by rw [ha]; rfl, hsome⟩ h.excl
      refine ⟨?_, ?_⟩
      · simp [appStep, ha, hrfo]
      · simp [appStep, ha]
  | startRFO format quality =>
    by_cases hg : s.isReprocessing = true
    · simpa [appStep, hg] using h
    · have hflag : s.isReprocessing = false := by
        cases hb : s.isReprocessing
        · rfl
        · exact absurd hb hg
      have hra : s.activeRA.isSome = false := by
        have := h.flag
        rw [hflag] at this
        cases hsome : s.activeRA.isSome
        · rfl
        · rw [hsome, Bool.true_or] at this
          exact Bool.noConfusion this
      by_cases hq : s.queue.filter isFailed = []
      · simpa [appStep, hflag, hq] using h
      · refine ⟨?_, ?_⟩
        · simp [appStep, hflag, hq, hra]
        · simp [appStep, hflag, hq, hra]
  | finishRFO envOf =>
    cases ha : s.activeRFO with
    | none => simpa [appStep, ha] using h
    | some v =>
      obtain ⟨format, quality, ids⟩ := v
      have hra : s.activeRA.isSome = false := by
        cases hsome : s.activeRA.isSome
        · rfl
        · exact absurd ⟨hsome, by rw [ha]; rfl⟩ h.excl
      refine ⟨?_, ?_⟩
      · simp [appStep, ha, hra]
      · simp [appStep, ha]

theorem appInv_run {Q : Type} (queue : List QueuedImage)
    (trace : List (AppEv Q)) : AppInv (appRun queue trace) := by
  unfold appRun
  have key : ∀ (s : AppState Q), AppInv s →
      AppInv (trace.foldl appStep s) := by
    induction trace with
    | nil => exact fun s hs => hs
    | cons e t ih => exact fun s hs => ih _ (appInv_step s e hs)
  exact key _ (appInv_init queue)

/-- Core correctness of the `mapWithConcurrency` machine, shared by the
claims about it: under any completing schedule with at least one runner the
output has one entry per input, the `i`-th being `worker items[i] i`. -/
theorem limRun_output_spec {T R : Type} (items : List T)
    (worker : T → Nat → R) (concurrency : Int) (sched : List Nat)
    (hn : 1 ≤ numRunners concurrency items.length ∨ items.length = 0)
    (hdone : allDone concurrency items.length
      (limRun items worker concurrency sched)) :
    (limOutput items.length (limRun items worker concurrency sched)).length =
        items.length ∧
      ∀ i, i < items.length →
        (limOutput items.length
            (limRun items worker concurrency sched)).get? i =
          (items.get? i).map (fun a => worker a i) := by
  have hres := limRun_results items worker concurrency sched hdone hn
  have hsome : ∀ i, i < items.length →
      ((limRun items worker concurrency sched).results i).isSome := by
    intro i hi
    rw [hres i hi, List.get?_eq_get hi]
    rfl
  obtain ⟨hlen, hget⟩ := range_filterMap_all_some items.length _ hsome
  exact ⟨hlen, fun i hi => by rw [limOutput, hget i hi, hres i hi]⟩

/-- With `1 ≤ C ≤ N` the machine spawns `C` runners, in particular at least
one. -/
theorem numRunners_pos {T : Type} (items : List T) (C : Int) (h1 : 1 ≤ C)
    (h2 : C ≤ (items.length : Int)) :
    1 ≤ numRunners C items.length := by
  unfold numRunners
  have hmin : (1 : Int) ≤ min C (items.length : Int) := le_min h1 (h1.trans h2)
  omega

/-- C4 — For every input list of N items and every concurrency limit C with
1 ≤ C ≤ N, `mapWithConcurrency(items, C, worker)` returns exactly N
results, the result at index i being `worker(items[i], i)`, in original
submission order, for every schedule (completion order) of the runners. -/
theorem c4_limiter_order {T R : Type} (items : List T)
    (worker : T → Nat → R) (C : Int) (h1 : 1 ≤ C)
    (h2 : C ≤ (items.length : Int)) (sched : List Nat)
    (hdone : allDone C items.length (limRun items worker C sched)) :
    (limOutput items.length (limRun items worker C sched)).length =
        items.length ∧
      ∀ i, i < items.length →
        (limOutput items.length (limRun items worker C sched)).get? i =
          (items.get? i).map (fun a => worker a i) :=
  limRun_output_spec items worker C sched
    (Or.inl (numRunners_pos items C h1 h2)) hdone

/-- Witness for C4: a concrete two-item run under limit 2, with a schedule
interleaving the two runners, produces both results in order. -/
theorem c4_witness :
    (limOutput (List.length [10, 20])
        (limRun [10, 20] (fun a i => a + i) 2 [0, 1, 0, 1, 0, 1])).length =
      List.length [10, 20] ∧
    ∀ i, i < List.length [10, 20] →
      (limOutput (List.length [10, 20])
          (limRun [10, 20] (fun a i => a + i) 2 [0, 1, 0, 1, 0, 1])).get? i =
        (List.get? [10, 20] i).map (fun a => a + i) :=
  c4_limiter_order [10, 20] (fun a i => a + i) 2 (by decide) (by decide)
    [0, 1, 0, 1, 0, 1] (by decide)

/-- C8 — With `limit <= 0` or an empty input list, `mapWithConcurrency`
spawns no runners, leaves its state untouched under every schedule, returns
an empty result sequence, and never invokes the worker. -/
theorem c8_empty_no_work {T R : Type} (items : List T)
    (worker : T → Nat → R) (C : Int) (h : C ≤ 0 ∨ items = [])
    (sched : List Nat) :
    numRunners C items.length = 0 ∧
      limRun items worker C sched = limInit R ∧
      limOutput items.length (limRun items worker C sched) = [] ∧
      (limRun items worker C sched).calls = 0 := by
  have hz : numRunners C items.length = 0 := by
    unfold numRunners
    rcases h with h | h
    · have hle : min C (items.length : Int) ≤ 0 :=
        le_trans (min_le_left _ _) h
      omega
    · have hle : min C (items.length : Int) ≤ 0 := by
        rw [h]
        simpa using min_le_right C 0
      omega
  have hid : ∀ (s : LimState R) (r : Nat), limStep items worker C s r = s := by
    intro s r
    unfold limStep
    rw [hz]
    simp
  have hrun : limRun items worker C sched = limInit R := by
    unfold limRun
    induction sched with
    | nil => rfl
    | cons a t ih =>
      rw [List.foldl_cons, hid]
      exact ih
  refine ⟨hz, hrun, ?_, ?_⟩
  · rw [hrun]
    simp [limOutput, limInit]
  · rw [hrun]
    rfl

/-- Witness for C8: limit 0 over a singleton input runs nobody and returns
nothing. -/
theorem c8_witness :
    numRunners 0 (List.length [5]) = 0 ∧
      limRun [5] (fun a _ => a) 0 [0, 1, 2] = limInit Nat ∧
      limOutput (List.length [5]) (limRun [5] (fun a _ => a) 0 [0, 1, 2]) = [] ∧
      (limRun [5] (fun a _ => a) 0 [0, 1, 2]).calls = 0 :=
  c8_empty_no_work [5] (fun a _ => a) 0 (Or.inl (by decide)) [0, 1, 2]

/-- C6 — `detectSupport` performs the underlying probe at most once per
process: over every trace of calls and probe resolutions, `performDetection`
has been started at most once, every value any call returned is the one
probe snapshot, and that snapshot hard-codes jpeg and png to true without
probing them. -/
theorem c6_single_flight (env : ProbeEnv) (trace : List DetEv) :
    (detRun env trace).probeCount ≤ 1 ∧
      (∀ p ∈ (detRun env trace).returned, p.2 = performDetection env) ∧
      (performDetection env).jpeg = true ∧ (performDetection env).png = true := by
  have inv := detInv_run env trace
  refine ⟨?_, inv.ret, rfl, rfl⟩
  rw [inv.count]
  split <;> omega

/-- Witness for C6: three callers, two of them before the probe resolves,
all see the single probe's snapshot. -/
theorem c6_witness :
    (detRun cProbeEnv [.call 0, .call 1, .finish, .call 2]).probeCount ≤ 1 ∧
      ((2 : Nat), FormatSupport.mk false false true true).2 =
        performDetection cProbeEnv :=
  ⟨(c6_single_flight cProbeEnv [.call 0, .call 1, .finish, .call 2]).1,
    (c6_single_flight cProbeEnv [.call 0, .call 1, .finish, .call 2]).2.1
      (2, FormatSupport.mk false false true true) (by decide)⟩

/-- Every `usedFallback` record `encodeCanvas` ever returns carries the
originally requested format, at every construction site. -/
theorem encode_usedFallback_requested {Q : Type}
    (enc : String → Q → Option Blob) (support : FormatSupport)
    (format : OutputFormat) (quality : Q) (r : EncodeResult)
    (fb : EncFallback) (h1 : encodeCanvas enc support format quality = .ok r)
    (h2 : r.usedFallback = some fb) : fb.requestedFormat = format := by
  unfold encodeCanvas encodeCanvasT encodeCatch at h1
  simp only [] at h1
  (try split at h1) <;> (try split at h1) <;> (try split at h1) <;>
    (try split at h1) <;> (try split at h1) <;> (try split at h1) <;>
    (try split at h1)
  all_goals dsimp only at h1
  all_goals try rw [Except.ok.injEq] at h1
  all_goals try subst h1
  all_goals
    first
    | (have h3 := Option.some.inj h2
       rw [← h3])
    | simp_all

/-- C5 — When the snapshot (whose baseline formats are always true, as
`performDetection` guarantees) marks the requested format supported,
`getBestFallbackFormat` returns it unchanged; when it is unsupported the
result is a supported format from the fixed priority chain; when avif and
its first fallback webp are both unsupported the result is the baseline
jpeg; and every fallback decision `encodeCanvas` records carries the
originally requested format. -/
theorem c5_fallback_correct (s : FormatSupport) (hj : s.jpeg = true)
    (hp : s.png = true) (f : OutputFormat) :
    (s.supp f = true → getBestFallbackFormat s f = f) ∧
      (s.supp f = false →
        s.supp (getBestFallbackFormat s f) = true ∧
          getBestFallbackFormat s f ∈ fallbackChain f) ∧
      (f = .avif → s.avif = false → s.webp = false →
        getBestFallbackFormat s f = .jpeg) ∧
      (f = .webp → s.webp = false → getBestFallbackFormat s f = .jpeg) ∧
      (∀ (Q : Type) (enc : String → Q → Option Blob) (q : Q)
        (r : EncodeResult) (fb : EncFallback),
        encodeCanvas enc s f q = .ok r → r.usedFallback = some fb →
          fb.requestedFormat = f) := by
  obtain ⟨sa, sw, sj, sp⟩ := s
  cases hj
  cases hp
  refine ⟨?_, ?_, ?_, ?_, fun Q enc q r fb h1 h2 =>
    encode_usedFallback_requested enc _ f q r fb h1 h2⟩ <;>
    cases f <;> cases sa <;> cases sw <;> decide

/-- Witness for C5: with avif and webp both unsupported, requesting avif
lands on the supported baseline jpeg via the chain. -/
theorem c5_witness :
    (FormatSupport.mk false false true true).supp
        (getBestFallbackFormat (FormatSupport.mk false false true true)
          .avif) = true ∧
      getBestFallbackFormat (FormatSupport.mk false false true true) .avif =
        .jpeg :=
  ⟨((c5_fallback_correct (FormatSupport.mk false false true true) rfl rfl
      .avif).2.1 (by decide)).1,
    (c5_fallback_correct (FormatSupport.mk false false true true) rfl rfl
      .avif).2.2.1 rfl rfl rfl⟩

/-- C10 — Every `(mimeType, quality)` pair `encodeCanvas` ever hands to the
encoder — the initial attempt and every JPEG retry, in every branch —
carries exactly the quality it was called with. -/
theorem c10_quality_preserved {Q : Type} (enc : String → Q → Option Blob)
    (support : FormatSupport) (format : OutputFormat) (quality : Q) :
    ∀ p ∈ (encodeCanvasT enc support format quality).2, p.2 = quality := by
  intro p hp
  unfold encodeCanvasT encodeCatch at hp
  simp only [] at hp
  (try split at hp) <;> (try split at hp) <;> (try split at hp) <;>
    (try split at hp) <;> (try split at hp) <;> (try split at hp) <;>
    (try split at hp)
  all_goals dsimp only at hp
  all_goals fin_cases hp <;> rfl

/-- Witness for C10: with an encoder that always answers with a PNG-typed
blob, the initial WebP attempt (one of the calls actually made) carries the
original quality 7. -/
theorem c10_witness :
    (("image/webp", (7 : Nat)) : String × Nat).2 = 7 :=
  c10_quality_preserved (fun _ _ => some { type := "image/png", size := 1 })
    (FormatSupport.mk true true true true) .webp 7 ("image/webp", 7)
    (by decide)

/-- Counterexample to C2: requesting avif selects the webp fallback, its
encode mismatches, the JPEG retry mismatches too — yet `encodeCanvas`
reports success, with `actualFormat` jpeg and a blob whose declared type is
`image/png`, because the catch-path retry skips verification. -/
theorem c2_counterexample :
    encodeCanvas cEncD cSupportD .avif (80 : Nat) =
      .ok { blob := { type := "image/png", size := 3 },
            actualFormat := .jpeg,
            usedFallback := some { requestedFormat := .avif,
                                   reason := jpegRetryReason .webp } } ∧
      "image/png" ≠ getMimeType .jpeg := by
  constructor
  · rfl
  · decide

/-- C2 (amended) — When the selected format's encode returns a mismatched
blob and every JPEG answer is mismatched too (selected format not already
jpeg): the item ends failed with the verification-derived message only when
the catch-path JPEG retry yields no blob; when it yields a blob,
`encodeCanvas` returns success carrying that unverified blob under
`actualFormat` jpeg. Either way the batch still returns every other item's
own result. -/
theorem c2_amended_correct {Q : Type} (enc : String → Q → Option Blob)
    (s : FormatSupport) (f : OutputFormat) (q : Q) (blob : Blob)
    (hblob : enc (getMimeType (selectedFormat s f)) q = some blob)
    (hmis : blob.type ≠ getMimeType (selectedFormat s f))
    (hjne : selectedFormat s f ≠ .jpeg)
    (hjm : ∀ fb, enc "image/jpeg" q = some fb → fb.type ≠ "image/jpeg") :
    (enc "image/jpeg" q = none →
      encodeCanvas enc s f q =
        .error ("画像のエンコードに失敗しました: " ++
          verifyErrMsg (getMimeType (selectedFormat s f)) blob.type)) ∧
      (∀ fb, enc "image/jpeg" q = some fb →
        encodeCanvas enc s f q =
          .ok { blob := fb, actualFormat := .jpeg,
                usedFallback := some { requestedFormat := f,
                                       reason := jpegRetryReason
                                         (selectedFormat s f) } }) ∧
      (∀ (envOf : Nat → PipeEnv Q) (files : List FileSpec) (C : Int)
        (sched : List Nat),
        1 ≤ C → C ≤ (files.length : Int) →
        allDone C files.length
          (limRun files (batchWorker envOf f q) C sched) →
        ∀ i, i < files.length →
          (limOutput files.length
              (limRun files (batchWorker envOf f q) C sched)).get? i =
            (files.get? i).map fun file =>
              processFile (envOf i) i file.name file.size file.url f q) := by
  have hsel : (if s.supp f then f else getBestFallbackFormat s f) =
      selectedFormat s f := rfl
  refine ⟨?_, ?_, ?_⟩
  · intro hnone
    simp only [encodeCanvas, encodeCanvasT, encodeCatch, hsel, hblob, hnone]
    simp [hmis, hjne]
  · intro fb hfb
    have hfbt : fb.type ≠ "image/jpeg" := hjm fb hfb
    simp only [encodeCanvas, encodeCanvasT, encodeCatch, hsel, hblob, hfb]
    simp [hmis, hjne, hfbt]
  · intro envOf files C sched h1 h2 hdone
    exact (limRun_output_spec files (batchWorker envOf f q) C sched
      (Or.inl (numRunners_pos files C h1 h2)) hdone).2

/-- Witness for C2 (amended): the concrete always-PNG encoder satisfies the
premises, and the success-with-unverified-blob branch fires. -/
theorem c2_amended_witness :
    encodeCanvas cEncD cSupportD .avif (80 : Nat) =
      .ok { blob := { type := "image/png", size := 3 },
            actualFormat := .jpeg,
            usedFallback := some { requestedFormat := .avif,
                                   reason := jpegRetryReason
                                     (selectedFormat cSupportD .avif) } } :=
  (c2_amended_correct cEncD cSupportD .avif 80
      { type := "image/png", size := 3 } (by decide) (by decide) (by decide)
      (fun fb hfb => by
        simp only [cEncD, Option.some.injEq] at hfb
        rw [← hfb]
        decide)).2.1
    { type := "image/png", size := 3 } (by decide)

/-- C7 — `processFile` never raises: a pipeline error is recorded as the
returned item's error message (with no artifact), a pipeline success yields
an item with no error; and the batch over N items under any completing
schedule returns all N items, the i-th depending only on the i-th file and
its own environment — one item's failure never prevents the others. -/
theorem c7_errors_contained {Q : Type} :
    (∀ (env : PipeEnv Q) (id : Nat) (name : String) (size : Nat)
      (url : String) (format : OutputFormat) (q : Q) (e : String),
      runPipeline env format q = .error e →
        (processFile env id name size url format q).error = some e ∧
          (processFile env id name size url format q).processedBlob = none) ∧
      (∀ (env : PipeEnv Q) (id : Nat) (name : String) (size : Nat)
        (url : String) (format : OutputFormat) (q : Q) (r : EncodeResult),
        runPipeline env format q = .ok r →
          (processFile env id name size url format q).error = none) ∧
      (∀ (envOf : Nat → PipeEnv Q) (files : List FileSpec)
        (format : OutputFormat) (q : Q) (C : Int) (sched : List Nat),
        1 ≤ C → C ≤ (files.length : Int) →
        allDone C files.length
          (limRun files (batchWorker envOf format q) C sched) →
        (limOutput files.length
            (limRun files (batchWorker envOf format q) C sched)).length =
            files.length ∧
          ∀ i, i < files.length →
            (limOutput files.length
                (limRun files (batchWorker envOf format q) C sched)).get? i =
              (files.get? i).map fun file =>
                processFile (envOf i) i file.name file.size file.url
                  format q) := by
  refine ⟨?_, ?_, ?_⟩
  · intro env id name size url format q e h
    unfold processFile
    rw [h]
    exact ⟨rfl, rfl⟩
  · intro env id name size url format q r h
    unfold processFile
    rw [h]
    rfl
  · intro envOf files format q C sched h1 h2 hdone
    exact limRun_output_spec files (batchWorker envOf format q) C sched
      (Or.inl (numRunners_pos files C h1 h2)) hdone

/-- Witness for C7: a failing item records its error, and a two-item batch
under limit 1 (single runner, schedule running it to completion) returns
both items. -/
theorem c7_witness :
    ((processFile cEnvBad 0 "a.png" 3 "u" .webp (80 : Nat)).error =
        some "decode failed" ∧
      (processFile cEnvBad 0 "a.png" 3 "u" .webp (80 : Nat)).processedBlob =
        none) ∧
      (limOutput
          (List.length [FileSpec.mk "a.png" 3 "u", FileSpec.mk "b.png" 4 "v"])
          (limRun [FileSpec.mk "a.png" 3 "u", FileSpec.mk "b.png" 4 "v"]
            (batchWorker (fun _ => cEnvBad) .webp 80) 1
            [0, 0, 0, 0, 0])).length =
        List.length [FileSpec.mk "a.png" 3 "u", FileSpec.mk "b.png" 4 "v"] :=
  ⟨(c7_errors_contained.1 cEnvBad 0 "a.png" 3 "u" .webp 80 "decode failed"
      rfl),
    ((c7_errors_contained.2.2 (fun _ => cEnvBad)
        [FileSpec.mk "a.png" 3 "u", FileSpec.mk "b.png" 4 "v"] .webp 80 1
        [0, 0, 0, 0, 0] (by decide) (by decide) (by decide)).1)⟩

/-- Counterexample to C1: an item that succeeded on submit and then fails a
reprocess attempt ends up with the error set while still carrying the
previous attempt's `processedBlob`/`processedUrl` — both populated at
once. -/
theorem c1_counterexample :
    ¬ artifactErrorExclusive (reprocessImage cEnvBad .webp (80 : Nat) cImg0) := by
  decide

/-- C1 (amended) — Freshly submitted items satisfy the exclusivity
invariant; a successful reprocess attempt clears the error alongside the
new artifact; but a failed reprocess attempt sets the error while leaving
the previous `processedBlob`/`processedUrl` in place, so a previously
succeeded item then carries both. -/
theorem c1_amended_correct {Q : Type} (env : PipeEnv Q)
    (format : OutputFormat) (q : Q) :
    (∀ (id : Nat) (name : String) (size : Nat) (url : String),
      artifactErrorExclusive (processFile env id name size url format q)) ∧
      (∀ (img : QueuedImage) (r : EncodeResult),
        runPipeline env format q = .ok r →
          (reprocessImage env format q img).error = none) ∧
      (∀ (img : QueuedImage) (e : String),
        runPipeline env format q = .error e →
          (reprocessImage env format q img).error = some e ∧
            (reprocessImage env format q img).processedBlob =
              img.processedBlob ∧
            (reprocessImage env format q img).processedUrl =
              img.processedUrl) := by
  refine ⟨?_, ?_, ?_⟩
  · intro id name size url
    unfold artifactErrorExclusive processFile
    cases h : runPipeline env format q with
    | ok r => exact Or.inl rfl
    | error e => exact Or.inr ⟨rfl, rfl⟩
  · intro img r h
    unfold reprocessImage
    rw [h]
  · intro img e h
    unfold reprocessImage
    rw [h]
    exact ⟨rfl, rfl, rfl⟩

/-- Witness for C1 (amended): a fresh item is exclusive, and the failing
reprocess of the previously succeeded `cImg0` records the decode error. -/
theorem c1_amended_witness :
    artifactErrorExclusive (processFile cEnvOk 1 "b.png" 4 "u3" .webp (80 : Nat)) ∧
      (reprocessImage cEnvBad .webp (80 : Nat) cImg0).error =
        some "decode failed" :=
  ⟨(c1_amended_correct cEnvOk .webp 80).1 1 "b.png" 4 "u3",
    ((c1_amended_correct cEnvBad .webp 80).2.2 cImg0 "decode failed"
        rfl).1⟩

/-- C9 — `reprocessFailedOnly` touches only failed items: with zero failed
items the queue is returned unchanged with zero pipeline invocations; a
non-failed item's slot is untouched whatever the settings; a failed item's
slot is exactly its reprocess result. -/
theorem c9_failed_only {Q : Type} (envOf : Nat → PipeEnv Q)
    (format : OutputFormat) (q : Q) (queue : List QueuedImage) :
    ((queue.filter isFailed).length = 0 →
      reprocessFailedOnlyQueue envOf format q queue = queue ∧
        reprocessFailedOnlyCalls queue = 0) ∧
      (∀ i img, queue.get? i = some img → img.error = none →
        (reprocessFailedOnlyQueue envOf format q queue).get? i = some img) ∧
      (∀ i img, queue.get? i = some img → img.error.isSome = true →
        (reprocessFailedOnlyQueue envOf format q queue).get? i =
          some (reprocessImage (envOf img.id) format q img)) := by
  refine ⟨?_, ?_, ?_⟩
  · intro h
    unfold reprocessFailedOnlyQueue reprocessFailedOnlyCalls
    rw [if_pos h]
    exact ⟨rfl, h⟩
  · intro i img hi herr
    unfold reprocessFailedOnlyQueue
    by_cases h0 : (queue.filter isFailed).length = 0
    · rw [if_pos h0]
      exact hi
    · rw [if_neg h0, List.get?_map, hi]
      simp [isFailed, herr]
  · intro i img hi herr
    unfold reprocessFailedOnlyQueue
    have h0 : ¬(queue.filter isFailed).length = 0 := by
      intro h0
      have hmem : img ∈ queue.filter isFailed :=
        List.mem_filter.mpr ⟨List.get?_mem hi, by simpa [isFailed] using herr⟩
      rw [List.length_eq_zero.mp h0] at hmem
      exact List.not_mem_nil img hmem
    rw [if_neg h0, List.get?_map, hi]
    simp [isFailed, herr]

/-- Witness for C9: on a queue with one succeeded and one failed item, the
succeeded slot is untouched and the failed slot is replaced by its
reprocess result; on the all-good queue nothing happens at all. -/
theorem c9_witness :
    (reprocessFailedOnlyQueue (fun _ => cEnvOk) .webp (80 : Nat)
        [cImg0, cImgFail]).get? 0 = some cImg0 ∧
      (reprocessFailedOnlyQueue (fun _ => cEnvOk) .webp (80 : Nat)
          [cImg0, cImgFail]).get? 1 =
        some (reprocessImage (cEnvOk) .webp 80 cImgFail) ∧
      reprocessFailedOnlyQueue (fun _ => cEnvOk) .webp (80 : Nat) [cImg0] =
        [cImg0] :=
  ⟨(c9_failed_only (fun _ => cEnvOk) .webp 80 [cImg0, cImgFail]).2.1 0 cImg0
      rfl rfl,
    (c9_failed_only (fun _ => cEnvOk) .webp 80 [cImg0, cImgFail]).2.2 1
      cImgFail rfl rfl,
    ((c9_failed_only (fun _ => cEnvOk) .webp 80 [cImg0]).1 rfl).1⟩

/-- Counterexample to C3: while `reprocessAll` is still in flight, a
`handleFiles` call is not a no-op — it goes in flight too (two batch
operations at once) and, on completion, pushes its results into the queue
with the reprocess pass still active. -/
theorem c3_counterexample :
    inFlightOps (appRun (Q := Nat) [cImgA]
        [.startRA .webp 80, .startSubmit [cImgB]]) = 2 ∧
      (appRun (Q := Nat) [cImgA]
          [.startRA .webp 80, .startSubmit [cImgB], .finishSubmit]).queue =
        [cImgA, cImgB] ∧
      (appRun (Q := Nat) [cImgA]
          [.startRA .webp 80, .startSubmit [cImgB],
            .finishSubmit]).activeRA.isSome = true :=
  ⟨rfl, rfl, rfl⟩

/-- C3 (amended) — Mutual exclusion holds between the two reprocess passes
only: they never overlap, the `isReprocessing` flag is set whenever either
is in flight, and while it is set a new `reprocessAll` or
`reprocessFailedOnly` call leaves the state untouched. `handleFiles` is
outside this discipline (see the counterexample). -/
theorem c3_amended_correct {Q : Type} (q0 : List QueuedImage)
    (trace : List (AppEv Q)) :
    (¬((appRun q0 trace).activeRA.isSome = true ∧
        (appRun q0 trace).activeRFO.isSome = true)) ∧
      ((appRun q0 trace).activeRA.isSome = true ∨
          (appRun q0 trace).activeRFO.isSome = true →
        (appRun q0 trace).isReprocessing = true) ∧
      ((appRun q0 trace).isReprocessing = true →
        ∀ (format : OutputFormat) (q : Q),
          appStep (appRun q0 trace) (.startRA format q) = appRun q0 trace ∧
            appStep (appRun q0 trace) (.startRFO format q) =
              appRun q0 trace) := by
  have inv := appInv_run q0 trace
  refine ⟨inv.excl, ?_, ?_⟩
  · intro h
    rw [inv.flag]
    rcases h with h | h
    · rw [h, Bool.true_or]
    · rw [h, Bool.or_true]
  · intro h format q
    constructor
    · simp [appStep, h]
    · simp [appStep, h]

/-- Witness for C3 (amended): with `reprocessAll` in flight, a second
`reprocessAll` start leaves the state exactly as it was. -/
theorem c3_amended_witness :
    appStep (appRun (Q := Nat) [cImgA] [.startRA .webp 80])
        (.startRA .webp 80) =
      appRun (Q := Nat) [cImgA] [.startRA .webp 80] :=
  ((c3_amended_correct [cImgA] [.startRA .webp 80]).2.2 rfl .webp 80).1

end ImgSharp
